import Mathlib

/-!
Verification of the `assetsv3` pallet (multi-asset balance ledger) and its
imbalance layer (`balanced.rs`) from the polkadot-ethereum parachain.

The embedding models `U256` values as `Nat` with explicit `2 ^ 256` overflow
guards, the `Asset` storage map and `Account` storage double map as
association lists, and each operation as a function from a state to a pair of
the post-state and an `Except` outcome.  Storage writes in the source are
committed immediately (FRAME `try_mutate` only withholds the write-back of
its own key), so the post-state on the error path is threaded explicitly and
"a failed call leaves storage unchanged" is a theorem, not a modelling
assumption.
-/

namespace AssetsV3

/-- The modulus of the `U256` numeric type. -/
def U256Mod : Nat := 2 ^ 256

/-- `U256::checked_add`: `none` on overflow. -/
def checkedAdd256 (a b : Nat) : Option Nat :=
  if a + b < U256Mod then some (a + b) else none

/-- `U256::checked_sub`: `none` on underflow. -/
def checkedSub256 (a b : Nat) : Option Nat :=
  if b ≤ a then some (a - b) else none

/-- `U256::saturating_add`. -/
def saturatingAdd256 (a b : Nat) : Nat :=
  min (a + b) (U256Mod - 1)

/-- `U256::saturating_sub`; on unsigned values this is truncated subtraction. -/
def saturatingSub256 (a b : Nat) : Nat := a - b

/-- `u32::checked_add` for the account counter. -/
def checkedAdd32 (a b : Nat) : Option Nat :=
  if a + b < 2 ^ 32 then some (a + b) else none

/-- `u32::saturating_sub`; truncated subtraction. -/
def saturatingSub32 (a b : Nat) : Nat := a - b

/-! ### Association-list maps

The Balance Store's `StorageMap` / `StorageDoubleMap` are modelled as
association lists.  `mput` replaces the first binding of the key (or appends
a fresh binding), `mdel` removes every binding of the key; on lists with
no duplicate keys these agree with the storage semantics. -/

def mget {K V : Type} [DecidableEq K] : List (K × V) → K → Option V
  | [], _ => none
  | (k', v) :: t, k => if k' = k then some v else mget t k

def mput {K V : Type} [DecidableEq K] : List (K × V) → K → V → List (K × V)
  | [], k, v => [(k, v)]
  | (k', v') :: t, k, v => if k' = k then (k, v) :: t else (k', v') :: mput t k v

def mdel {K V : Type} [DecidableEq K] : List (K × V) → K → List (K × V)
  | [], _ => []
  | (k', v') :: t, k => if k' = k then mdel t k else (k', v') :: mdel t k

/-- No key is bound twice. -/
def NodupKeys {K V : Type} (m : List (K × V)) : Prop := (m.map Prod.fst).Nodup

/-! ### Sums and counts over the Account double map

The `Account` double map is keyed by `(asset id, account id)`.  `sumFor`
adds up the stored balances of one asset; `cntFor` counts the stored
entries of one asset whose balance is strictly positive. -/

def sumFor : List ((Nat × Nat) × Nat) → Nat → Nat
  | [], _ => 0
  | (k, v) :: t, id => (if k.1 = id then v else 0) + sumFor t id

def cntFor : List ((Nat × Nat) × Nat) → Nat → Nat
  | [], _ => 0
  | (k, v) :: t, id => (if k.1 = id ∧ 0 < v then 1 else 0) + cntFor t id

/-- `AssetDetails { supply: U256, accounts: u32 }`. -/
structure AssetDetails where
  supply : Nat
  accounts : Nat
deriving DecidableEq, Repr

/-- `TokenError` variants used by the pallet (from `sp_runtime`). -/
inductive TokenError
  | NoFunds
  | UnknownAsset
  | Underflow
  | Overflow
deriving DecidableEq, Repr

/-- `DispatchError`: the pallet's own `Error` variants plus `TokenError`. -/
inductive DispatchError
  | InUse
  | Overflow
  | Token (e : TokenError)
deriving DecidableEq, Repr

/-- `DepositConsequence` (from the `artemis_tokens` crate). -/
inductive DepositConsequence
  | Success
  | UnknownAsset
  | Overflow
deriving DecidableEq, Repr

/-- `WithdrawConsequence` (from the `artemis_tokens` crate). -/
inductive WithdrawConsequence
  | Success
  | UnknownAsset
  | Underflow
  | NoFunds
deriving DecidableEq, Repr

/-- Modelled from the spec: `DepositConsequence::into_result` lives in the
`artemis_tokens` crate, which is not part of the sources; per §4.2 a failing
pre-check "propagates its code as an error". -/
def DepositConsequence.intoResult : DepositConsequence → Except DispatchError Unit
  | .Success => .ok ()
  | .UnknownAsset => .error (.Token .UnknownAsset)
  | .Overflow => .error (.Token .Overflow)

/-- Modelled from the spec: `WithdrawConsequence::into_result` lives in the
`artemis_tokens` crate, which is not part of the sources; per §4.2 a failing
pre-check "propagates its code as an error". -/
def WithdrawConsequence.intoResult : WithdrawConsequence → Except DispatchError Unit
  | .Success => .ok ()
  | .UnknownAsset => .error (.Token .UnknownAsset)
  | .Underflow => .error (.Token .Underflow)
  | .NoFunds => .error (.Token .NoFunds)

/-- The pallet's events. -/
inductive Event
  | Created (id : Nat)
  | Issued (id who amount : Nat)
  | Burned (id who amount : Nat)
  | Transferred (id source dest amount : Nat)
deriving DecidableEq, Repr

/-- Pallet storage plus the emitted-event log: the `Asset` storage map
(`OptionQuery`), the `Account` storage double map (`ValueQuery`, default
balance zero), and the events deposited so far. -/
structure St where
  asset : List (Nat × AssetDetails)
  account : List ((Nat × Nat) × Nat)
  events : List Event
deriving DecidableEq, Repr

def St.empty : St := ⟨[], [], []⟩

def emit (s : St) (e : Event) : St := { s with events := s.events ++ [e] }

/-! ### Operations (`pallets/assetsv3/src/lib.rs`) -/

/-- `Pallet::balance`: `Account::<T>::get(id, who).balance` (default zero). -/
def balance (s : St) (id who : Nat) : Nat :=
  (mget s.account (id, who)).getD 0

/-- `Pallet::supply`: `Asset::<T>::get(id).map(|x| x.supply).unwrap_or_else(zero)`. -/
def supply (s : St) (id : Nat) : Nat :=
  ((mget s.asset id).map AssetDetails.supply).getD 0

/-- `Pallet::do_create`. -/
def do_create (s : St) (id : Nat) : St × Except DispatchError Unit :=
  if (mget s.asset id).isSome then (s, .error .InUse)
  else (emit { s with asset := mput s.asset id ⟨0, 0⟩ } (.Created id), .ok ())

/-- `Pallet::new_account`: checked increment of the reference count.  The
`inc_sufficients` notification to `frame_system` is an external hook and is
not part of the modelled state. -/
def new_account (details : AssetDetails) : Except DispatchError AssetDetails :=
  match checkedAdd32 details.accounts 1 with
  | none => .error .Overflow
  | some n => .ok { details with accounts := n }

/-- `Pallet::dead_account`: saturating decrement of the reference count.  The
`dec_sufficients` notification to `frame_system` is an external hook and is
not part of the modelled state. -/
def dead_account (details : AssetDetails) : Except DispatchError AssetDetails :=
  .ok { details with accounts := saturatingSub32 details.accounts 1 }

/-- `Pallet::can_increase`. -/
def can_increase (s : St) (id who amount : Nat) : DepositConsequence :=
  match mget s.asset id with
  | none => .UnknownAsset
  | some details =>
    if checkedAdd256 details.supply amount = none then .Overflow
    else if balance s id who = 0 ∧ checkedAdd32 details.accounts 1 = none then .Overflow
    else if checkedAdd256 (balance s id who) amount = none then .Overflow
    else .Success

/-- `Pallet::can_decrease`. -/
def can_decrease (s : St) (id who amount : Nat) : WithdrawConsequence :=
  match mget s.asset id with
  | none => .UnknownAsset
  | some details =>
    if checkedSub256 details.supply amount = none then .Underflow
    else if checkedSub256 (balance s id who) amount = none then .NoFunds
    else .Success

/-- `Pallet::increase_balance`.  The outer `Asset::try_mutate` and inner
`Account::try_mutate` only write back when every step succeeds, and all the
fallible steps precede both write-backs, so the error cases return the
incoming state. -/
def increase_balance (s : St) (id who amount : Nat)
    (check : AssetDetails → Except DispatchError AssetDetails) :
    St × Except DispatchError Unit :=
  if amount = 0 then (s, .ok ())
  else match (can_increase s id who amount).intoResult with
  | .error e => (s, .error e)
  | .ok _ =>
    match mget s.asset id with
    | none => (s, .error (.Token .UnknownAsset))
    | some details =>
      match check details with
      | .error e => (s, .error e)
      | .ok details1 =>
        match (if balance s id who = 0 then new_account details1 else .ok details1) with
        | .error e => (s, .error e)
        | .ok details2 =>
          ({ s with
             asset := mput s.asset id details2,
             account := mput s.account (id, who)
               (saturatingAdd256 (balance s id who) amount) },
           .ok ())

/-- `Pallet::do_issue`: `increase_balance` with a saturating supply bump,
then the `Issued` event. -/
def do_issue (s : St) (id who amount : Nat) : St × Except DispatchError Unit :=
  match increase_balance s id who amount
      (fun d => .ok { d with supply := saturatingAdd256 d.supply amount }) with
  | (s1, .error e) => (s1, .error e)
  | (s1, .ok _) => (emit s1 (.Issued id who amount), .ok ())

/-- `Pallet::decrease_balance`.  `Account::try_mutate_exists` takes the
entry (default zero), removes it when the new balance is zero and stores it
otherwise. -/
def decrease_balance (s : St) (id who amount : Nat)
    (check : AssetDetails → Except DispatchError AssetDetails) :
    St × Except DispatchError Nat :=
  if amount = 0 then (s, .ok amount)
  else match (can_decrease s id who amount).intoResult with
  | .error e => (s, .error e)
  | .ok _ =>
    match mget s.asset id with
    | none => (s, .error (.Token .UnknownAsset))
    | some details =>
      match check details with
      | .error e => (s, .error e)
      | .ok details1 =>
        if saturatingSub256 (balance s id who) amount = 0 then
          match dead_account details1 with
          | .error e => (s, .error e)
          | .ok details2 =>
            ({ s with
               asset := mput s.asset id details2,
               account := mdel s.account (id, who) }, .ok amount)
        else
          ({ s with
             asset := mput s.asset id details1,
             account := mput s.account (id, who)
               (saturatingSub256 (balance s id who) amount) }, .ok amount)

/-- `Pallet::do_burn`: `decrease_balance` with a saturating supply cut,
then the `Burned` event. -/
def do_burn (s : St) (id who amount : Nat) : St × Except DispatchError Unit :=
  match decrease_balance s id who amount
      (fun d => .ok { d with supply := saturatingSub256 d.supply amount }) with
  | (s1, .error e) => (s1, .error e)
  | (s1, .ok _) => (emit s1 (.Burned id who amount), .ok ())

/-- `Pallet::do_transfer`.  The source balance is read before the mutation
pass; the destination credit is committed by the inner `Account::try_mutate`
before the source debit is written, so the intermediate state `s1` carries
the destination write. -/
def do_transfer (s : St) (id source dest amount : Nat) :
    St × Except DispatchError Unit :=
  if (mget s.asset id).isSome = false then (s, .error (.Token .UnknownAsset))
  else if amount = 0 then
    (emit s (.Transferred id source dest amount), .ok ())
  else
    match mget s.asset id with
    | none => (s, .error (.Token .UnknownAsset))
    | some details =>
      if source = dest then
        (emit { s with asset := mput s.asset id details }
          (.Transferred id source dest amount), .ok ())
      else
        match (can_decrease s id source amount).intoResult with
        | .error e => (s, .error e)
        | .ok _ =>
          match (can_increase s id dest amount).intoResult with
          | .error e => (s, .error e)
          | .ok _ =>
            match (if balance s id dest = 0 then new_account details
                   else .ok details) with
            | .error e => (s, .error e)
            | .ok details1 =>
              let destBal1 := saturatingAdd256 (balance s id dest) amount
              let s1 : St :=
                { s with account := mput s.account (id, dest) destBal1 }
              if saturatingSub256 (balance s id source) amount = 0 then
                match dead_account details1 with
                | .error e => (s1, .error e)
                | .ok details2 =>
                  (emit { s1 with
                          asset := mput s1.asset id details2,
                          account := mdel s1.account (id, source) }
                    (.Transferred id source dest amount), .ok ())
              else
                (emit { s1 with
                        asset := mput s1.asset id details1,
                        account := mput s1.account (id, source)
                          (saturatingSub256 (balance s id source) amount) }
                  (.Transferred id source dest amount), .ok ())

/-! ### The `Unbalanced` capability and the imbalance finalizers
(`lib.rs` trait impl and `primitives/tokens/src/multi/balanced.rs`) -/

/-- `Unbalanced::set_total_issuance` for the pallet: `Asset::mutate_exists`
that only touches an existing record. -/
def set_total_issuance (s : St) (id amount : Nat) : St :=
  match mget s.asset id with
  | none => s
  | some d => { s with asset := mput s.asset id { d with supply := amount } }

/-- `Inspect::total_issuance` for the pallet is `Pallet::supply`. -/
def total_issuance (s : St) (id : Nat) : Nat := supply s id

/-- `Unbalanced::increase_balance` for the pallet: `increase_balance` with a
no-op supply adjustment. -/
def unbalanced_increase_balance (s : St) (id who amount : Nat) :
    St × Except DispatchError Unit :=
  increase_balance s id who amount (fun d => .ok d)

/-- `Unbalanced::decrease_balance` for the pallet: `decrease_balance` with a
no-op supply adjustment. -/
def unbalanced_decrease_balance (s : St) (id who amount : Nat) :
    St × Except DispatchError Nat :=
  decrease_balance s id who amount (fun d => .ok d)

/-- `IncreaseIssuance::handle` (`balanced.rs`): the finalizer of an
unconsumed `Debt`. -/
def IncreaseIssuance_handle (s : St) (asset amount : Nat) : St :=
  set_total_issuance s asset (saturatingAdd256 (total_issuance s asset) amount)

/-- `DecreaseIssuance::handle` (`balanced.rs`): the finalizer of an
unconsumed `Credit`. -/
def DecreaseIssuance_handle (s : St) (asset amount : Nat) : St :=
  set_total_issuance s asset (saturatingSub256 (total_issuance s asset) amount)

/-! ### Spec-shaped pre-checks (§4.2 of the spec, for comparison with the
source-level `can_increase` / `can_decrease`) -/

/-- The deposit pre-check as the spec words it: `UnknownAsset` if no record;
`Overflow` if `total_issuance + amount` overflows; if the account's current
balance is zero, also requires `account_count + 1` not to overflow;
`Overflow` if `balance + amount` overflows; else `Success`. -/
def check_deposit_spec (s : St) (id who amount : Nat) : DepositConsequence :=
  match mget s.asset id with
  | none => .UnknownAsset
  | some d =>
    if U256Mod ≤ d.supply + amount then .Overflow
    else if balance s id who = 0 ∧ 2 ^ 32 ≤ d.accounts + 1 then .Overflow
    else if U256Mod ≤ balance s id who + amount then .Overflow
    else .Success

/-- The withdraw pre-check as the spec words it: `UnknownAsset` if no
record; `Underflow` if `total_issuance - amount` would underflow; `NoFunds`
if `balance - amount` would underflow; else `Success`. -/
def check_withdraw_spec (s : St) (id who amount : Nat) : WithdrawConsequence :=
  match mget s.asset id with
  | none => .UnknownAsset
  | some d =>
    if d.supply < amount then .Underflow
    else if balance s id who < amount then .NoFunds
    else .Success

/-! ### Invariants and reachability -/

/-- Every stored account entry belongs to an asset that has a record. -/
def AccOwned (s : St) : Prop :=
  ∀ id who b, mget s.account (id, who) = some b → (mget s.asset id).isSome

/-- For every asset with a record, the stored supply is the sum of the
stored balances of that asset. -/
def SumInv (s : St) : Prop :=
  ∀ id d, mget s.asset id = some d → d.supply = sumFor s.account id

/-- For every asset with a record, the stored reference count is the number
of stored accounts with strictly positive balance for that asset. -/
def CntInv (s : St) : Prop :=
  ∀ id d, mget s.asset id = some d → d.accounts = cntFor s.account id

/-- The full storage invariant carried through the reachability induction. -/
def Inv (s : St) : Prop :=
  NodupKeys s.asset ∧ NodupKeys s.account ∧ AccOwned s ∧ SumInv s ∧ CntInv s

/-- One successful public mutating operation of the pallet's `Mutate`
surface: `create_asset`, `mint` (`do_issue`), `burn` (`do_burn`) or
`transfer` (`do_transfer`). -/
inductive Step : St → St → Prop
  | create {s s' : St} {id : Nat} :
      do_create s id = (s', .ok ()) → Step s s'
  | issue {s s' : St} {id who amount : Nat} :
      do_issue s id who amount = (s', .ok ()) → Step s s'
  | burn {s s' : St} {id who amount : Nat} :
      do_burn s id who amount = (s', .ok ()) → Step s s'
  | transfer {s s' : St} {id source dest amount : Nat} :
      do_transfer s id source dest amount = (s', .ok ()) → Step s s'

/-- States reachable from empty storage by successful public operations. -/
inductive Reachable : St → Prop
  | base : Reachable St.empty
  | step {s s' : St} : Reachable s → Step s s' → Reachable s'

/-! ### Concrete states used by the witnesses -/

/-- The state after `do_create St.empty 0`. -/
def stCreated : St := ⟨[(0, ⟨0, 0⟩)], [], [Event.Created 0]⟩

/-- The state after `do_create St.empty 0` then `do_issue _ 0 1 5`. -/
def stMinted : St :=
  ⟨[(0, ⟨5, 1⟩)], [((0, 1), 5)], [Event.Created 0, Event.Issued 0 1 5]⟩

/-- The state after `stMinted` then `do_burn _ 0 1 2`. -/
def stBurned : St :=
  ⟨[(0, ⟨3, 1⟩)], [((0, 1), 3)],
   [Event.Created 0, Event.Issued 0 1 5, Event.Burned 0 1 2]⟩

theorem checkedAdd256_eq_none {a b : Nat} :
    checkedAdd256 a b = none ↔ U256Mod ≤ a + b := by
  unfold checkedAdd256; split <;> simp <;> omega

theorem checkedSub256_eq_none {a b : Nat} :
    checkedSub256 a b = none ↔ a < b := by
  unfold checkedSub256; split <;> simp <;> omega

theorem checkedAdd32_eq_none {a b : Nat} :
    checkedAdd32 a b = none ↔ 2 ^ 32 ≤ a + b := by
  unfold checkedAdd32; split <;> simp <;> omega

theorem saturatingAdd256_eq {a b : Nat} (h : a + b < U256Mod) :
    saturatingAdd256 a b = a + b := by
  unfold saturatingAdd256; omega

theorem mget_mput_self {K V : Type} [DecidableEq K] (m : List (K × V)) (k : K) (v : V) :
    mget (mput m k v) k = some v := by
  induction m with
  | nil => simp [mput, mget]
  | cons e t ih =>
    obtain ⟨k', v'⟩ := e
    by_cases h : k' = k
    · subst h; simp [mput, mget]
    · simp [mput, mget, h, ih]

theorem mget_mput_ne {K V : Type} [DecidableEq K] (m : List (K × V)) (k k' : K) (v : V)
    (h : k ≠ k') : mget (mput m k v) k' = mget m k' := by
  induction m with
  | nil => simp [mput, mget, h]
  | cons e t ih =>
    obtain ⟨k0, v0⟩ := e
    by_cases h0 : k0 = k
    · subst h0; simp [mput, mget, h]
    · simp [mput, mget, h0, ih]

theorem mget_mdel_self {K V : Type} [DecidableEq K] (m : List (K × V)) (k : K) :
    mget (mdel m k) k = none := by
  induction m with
  | nil => simp [mdel, mget]
  | cons e t ih =>
    obtain ⟨k0, v0⟩ := e
    by_cases h0 : k0 = k
    · simp [mdel, h0, ih]
    · simp [mdel, mget, h0, ih]

theorem mget_mdel_ne {K V : Type} [DecidableEq K] (m : List (K × V)) (k k' : K)
    (h : k ≠ k') : mget (mdel m k) k' = mget m k' := by
  induction m with
  | nil => simp [mdel]
  | cons e t ih =>
    obtain ⟨k0, v0⟩ := e
    by_cases h0 : k0 = k
    · subst h0; simp [mdel, mget, h, ih]
    · simp [mdel, mget, h0, ih]

theorem nodupKeys_cons {K V : Type} (k : K) (v : V) (t : List (K × V)) :
    NodupKeys ((k, v) :: t) ↔ (∀ w, (k, w) ∉ t) ∧ NodupKeys t := by
  simp [NodupKeys]

theorem mem_keys_mput {K V : Type} [DecidableEq K] (m : List (K × V)) (k a : K) (v : V)
    (h : ∃ w, (a, w) ∈ mput m k v) : (∃ w, (a, w) ∈ m) ∨ a = k := by
  induction m with
  | nil =>
    obtain ⟨w, hw⟩ := h
    simp [mput] at hw
    exact Or.inr hw.1
  | cons e t ih =>
    obtain ⟨k0, v0⟩ := e
    obtain ⟨w, hw⟩ := h
    by_cases h0 : k0 = k
    · subst h0
      simp [mput] at hw
      rcases hw with ⟨h1, _⟩ | h1
      · exact Or.inr h1
      · exact Or.inl ⟨w, by simp [h1]⟩
    · simp [mput, h0] at hw
      rcases hw with ⟨h1, h2⟩ | h1
      · exact Or.inl ⟨w, by simp [h1, h2]⟩
      · rcases ih ⟨w, h1⟩ with ⟨w', h'⟩ | h'
        · exact Or.inl ⟨w', by simp [h']⟩
        · exact Or.inr h'

theorem mem_keys_mdel {K V : Type} [DecidableEq K] (m : List (K × V)) (k a : K)
    (h : ∃ w, (a, w) ∈ mdel m k) : ∃ w, (a, w) ∈ m := by
  induction m with
  | nil => simp [mdel] at h
  | cons e t ih =>
    obtain ⟨k0, v0⟩ := e
    obtain ⟨w, hw⟩ := h
    by_cases h0 : k0 = k
    · subst h0
      simp [mdel] at hw
      obtain ⟨w', h'⟩ := ih ⟨w, hw⟩
      exact ⟨w', by simp [h']⟩
    · simp [mdel, h0] at hw
      rcases hw with ⟨h1, h2⟩ | h1
      · exact ⟨w, by simp [h1, h2]⟩
      · obtain ⟨w', h'⟩ := ih ⟨w, h1⟩
        exact ⟨w', by simp [h']⟩

theorem nodup_mput {K V : Type} [DecidableEq K] (m : List (K × V)) (k : K) (v : V)
    (h : NodupKeys m) : NodupKeys (mput m k v) := by
  induction m with
  | nil => simp [NodupKeys, mput]
  | cons e t ih =>
    obtain ⟨k0, v0⟩ := e
    rw [nodupKeys_cons] at h
    by_cases h0 : k0 = k
    · subst h0
      show NodupKeys (mput ((k0, v0) :: t) k0 v)
      simp only [mput, if_pos rfl]
      exact (nodupKeys_cons k0 v t).mpr h
    · have ht := ih h.2
      simp only [mput, if_neg h0]
      rw [nodupKeys_cons]
      refine ⟨fun w hw => ?_, ht⟩
      rcases mem_keys_mput t k k0 v ⟨w, hw⟩ with ⟨w', h'⟩ | h'
      · exact h.1 w' h'
      · exact h0 h'

theorem nodup_mdel {K V : Type} [DecidableEq K] (m : List (K × V)) (k : K)
    (h : NodupKeys m) : NodupKeys (mdel m k) := by
  induction m with
  | nil => simp [NodupKeys, mdel]
  | cons e t ih =>
    obtain ⟨k0, v0⟩ := e
    rw [nodupKeys_cons] at h
    by_cases h0 : k0 = k
    · subst h0
      simp only [mdel, if_pos rfl]
      exact ih h.2
    · simp only [mdel, if_neg h0]
      rw [nodupKeys_cons]
      refine ⟨fun w hw => ?_, ih h.2⟩
      obtain ⟨w', h'⟩ := mem_keys_mdel t k k0 ⟨w, hw⟩
      exact h.1 w' h'

theorem mget_eq_none_of_not_mem {K V : Type} [DecidableEq K] (m : List (K × V)) (k : K)
    (h : ∀ w, (k, w) ∉ m) : mget m k = none := by
  induction m with
  | nil => simp [mget]
  | cons e t ih =>
    obtain ⟨k0, v0⟩ := e
    have hk : ¬k0 = k := by
      intro he; subst he
      exact h v0 (by simp)
    have ht : ∀ w, (k, w) ∉ t := fun w hw => h w (by simp [hw])
    simp [mget, hk, ih ht]

theorem mdel_eq_of_mget_none {K V : Type} [DecidableEq K] (m : List (K × V)) (k : K)
    (h : mget m k = none) : mdel m k = m := by
  induction m with
  | nil => simp [mdel]
  | cons e t ih =>
    obtain ⟨k0, v0⟩ := e
    by_cases h0 : k0 = k
    · subst h0; simp [mget] at h
    · simp [mget, h0] at h
      simp [mdel, h0, ih h]

theorem sumFor_mput_ne (m : List ((Nat × Nat) × Nat)) (k : Nat × Nat) (v id : Nat)
    (h : k.1 ≠ id) : sumFor (mput m k v) id = sumFor m id := by
  induction m with
  | nil => simp [mput, sumFor, h]
  | cons e t ih =>
    obtain ⟨k0, v0⟩ := e
    by_cases h0 : k0 = k
    · subst h0; simp [mput, sumFor, h]
    · simp [mput, sumFor, h0, ih]

theorem sumFor_mput_none (m : List ((Nat × Nat) × Nat)) (k : Nat × Nat) (v id : Nat)
    (h : mget m k = none) :
    sumFor (mput m k v) id = sumFor m id + (if k.1 = id then v else 0) := by
  induction m with
  | nil => simp [mput, sumFor]
  | cons e t ih =>
    obtain ⟨k0, v0⟩ := e
    by_cases h0 : k0 = k
    · subst h0; simp [mget] at h
    · simp [mget, h0] at h
      simp [mput, sumFor, h0, ih h]
      omega

theorem sumFor_mput_some (m : List ((Nat × Nat) × Nat)) (k : Nat × Nat) (b v id : Nat)
    (hn : NodupKeys m) (h : mget m k = some b) :
    sumFor (mput m k v) id + (if k.1 = id then b else 0) =
      sumFor m id + (if k.1 = id then v else 0) := by
  induction m with
  | nil => simp [mget] at h
  | cons e t ih =>
    obtain ⟨k0, v0⟩ := e
    rw [nodupKeys_cons] at hn
    by_cases h0 : k0 = k
    · subst h0
      simp [mget] at h
      subst h
      simp [mput, sumFor]
      omega
    · simp [mget, h0] at h
      simp [mput, sumFor, h0]
      have := ih hn.2 h
      omega

theorem sumFor_mdel (m : List ((Nat × Nat) × Nat)) (k : Nat × Nat) (b id : Nat)
    (hn : NodupKeys m) (h : mget m k = some b) :
    sumFor (mdel m k) id + (if k.1 = id then b else 0) = sumFor m id := by
  induction m with
  | nil => simp [mget] at h
  | cons e t ih =>
    obtain ⟨k0, v0⟩ := e
    rw [nodupKeys_cons] at hn
    by_cases h0 : k0 = k
    · subst h0
      simp [mget] at h
      subst h
      have hnone : mget t k0 = none :=
        mget_eq_none_of_not_mem t k0 hn.1
      simp [mdel, mdel_eq_of_mget_none t k0 hnone, sumFor]
      exact Nat.add_comm _ _
    · simp [mget, h0] at h
      simp [mdel, sumFor, h0]
      have := ih hn.2 h
      omega

theorem cntFor_mput_ne (m : List ((Nat × Nat) × Nat)) (k : Nat × Nat) (v id : Nat)
    (h : k.1 ≠ id) : cntFor (mput m k v) id = cntFor m id := by
  induction m with
  | nil => simp [mput, cntFor, h]
  | cons e t ih =>
    obtain ⟨k0, v0⟩ := e
    by_cases h0 : k0 = k
    · subst h0; simp [mput, cntFor, h]
    · simp [mput, cntFor, h0, ih]

theorem cntFor_mput_none (m : List ((Nat × Nat) × Nat)) (k : Nat × Nat) (v id : Nat)
    (h : mget m k = none) :
    cntFor (mput m k v) id = cntFor m id + (if k.1 = id ∧ 0 < v then 1 else 0) := by
  induction m with
  | nil => simp [mput, cntFor]
  | cons e t ih =>
    obtain ⟨k0, v0⟩ := e
    by_cases h0 : k0 = k
    · subst h0; simp [mget] at h
    · simp [mget, h0] at h
      simp [mput, cntFor, h0, ih h]
      omega

theorem cntFor_mput_some (m : List ((Nat × Nat) × Nat)) (k : Nat × Nat) (b v id : Nat)
    (hn : NodupKeys m) (h : mget m k = some b) :
    cntFor (mput m k v) id + (if k.1 = id ∧ 0 < b then 1 else 0) =
      cntFor m id + (if k.1 = id ∧ 0 < v then 1 else 0) := by
  induction m with
  | nil => simp [mget] at h
  | cons e t ih =>
    obtain ⟨k0, v0⟩ := e
    rw [nodupKeys_cons] at hn
    by_cases h0 : k0 = k
    · subst h0
      simp [mget] at h
      subst h
      simp [mput, cntFor]
      omega
    · simp [mget, h0] at h
      simp [mput, cntFor, h0]
      have := ih hn.2 h
      omega

theorem cntFor_mdel (m : List ((Nat × Nat) × Nat)) (k : Nat × Nat) (b id : Nat)
    (hn : NodupKeys m) (h : mget m k = some b) :
    cntFor (mdel m k) id + (if k.1 = id ∧ 0 < b then 1 else 0) = cntFor m id := by
  induction m with
  | nil => simp [mget] at h
  | cons e t ih =>
    obtain ⟨k0, v0⟩ := e
    rw [nodupKeys_cons] at hn
    by_cases h0 : k0 = k
    · subst h0
      simp [mget] at h
      subst h
      have hnone : mget t k0 = none :=
        mget_eq_none_of_not_mem t k0 hn.1
      simp [mdel, mdel_eq_of_mget_none t k0 hnone, cntFor]
      exact Nat.add_comm _ _
    · simp [mget, h0] at h
      simp [mdel, cntFor, h0]
      have := ih hn.2 h
      omega

theorem sumFor_eq_zero (m : List ((Nat × Nat) × Nat)) (id : Nat)
    (h : ∀ w, mget m (id, w) = none) : sumFor m id = 0 := by
  induction m with
  | nil => simp [sumFor]
  | cons e t ih =>
    obtain ⟨k, v⟩ := e
    have hk : k.1 ≠ id := by
      intro he
      have hmem := h k.2
      have hkey : k = (id, k.2) := by
        cases k; simp_all
      rw [hkey] at hmem
      simp [mget] at hmem
    have ht : ∀ w, mget t (id, w) = none := by
      intro w
      have := h w
      by_cases hkw : k = (id, w)
      · rw [hkw] at hk; simp at hk
      · simpa [mget, hkw] using this
    simp [sumFor, hk, ih ht]

theorem cntFor_eq_zero (m : List ((Nat × Nat) × Nat)) (id : Nat)
    (h : ∀ w, mget m (id, w) = none) : cntFor m id = 0 := by
  induction m with
  | nil => simp [cntFor]
  | cons e t ih =>
    obtain ⟨k, v⟩ := e
    have hk : k.1 ≠ id := by
      intro he
      have hmem := h k.2
      have hkey : k = (id, k.2) := by
        cases k; simp_all
      rw [hkey] at hmem
      simp [mget] at hmem
    have ht : ∀ w, mget t (id, w) = none := by
      intro w
      have := h w
      by_cases hkw : k = (id, w)
      · rw [hkw] at hk; simp at hk
      · simpa [mget, hkw] using this
    simp [cntFor, hk, ih ht]

/-! ### Data model (`pallets/assetsv3/src/lib.rs`) -/

/-! ### Basic facts about the pre-checks -/

theorem depositConsequence_intoResult_ok {c : DepositConsequence} {u : Unit}
    (h : c.intoResult = .ok u) : c = .Success := by
  cases c
  · rfl
  · simp [DepositConsequence.intoResult] at h
  · simp [DepositConsequence.intoResult] at h

theorem withdrawConsequence_intoResult_ok {c : WithdrawConsequence} {u : Unit}
    (h : c.intoResult = .ok u) : c = .Success := by
  cases c
  · rfl
  · simp [WithdrawConsequence.intoResult] at h
  · simp [WithdrawConsequence.intoResult] at h
  · simp [WithdrawConsequence.intoResult] at h

theorem can_increase_success {s : St} {id who amount : Nat} {d : AssetDetails}
    (hm : mget s.asset id = some d)
    (h : can_increase s id who amount = .Success) :
    d.supply + amount < U256Mod ∧
    (balance s id who = 0 → d.accounts + 1 < 2 ^ 32) ∧
    balance s id who + amount < U256Mod := by
  unfold can_increase at h
  rw [hm] at h
  simp only [checkedAdd256_eq_none, checkedAdd32_eq_none] at h
  split_ifs at h with h1 h2 h3
  refine ⟨by omega, fun hb => ?_, by omega⟩
  rcases not_and_or.mp h2 with h' | h'
  · exact absurd hb h'
  · omega

theorem can_decrease_success {s : St} {id who amount : Nat} {d : AssetDetails}
    (hm : mget s.asset id = some d)
    (h : can_decrease s id who amount = .Success) :
    amount ≤ d.supply ∧ amount ≤ balance s id who := by
  unfold can_decrease at h
  rw [hm] at h
  simp only [checkedSub256_eq_none] at h
  split_ifs at h with h1 h2
  omega

theorem can_increase_some {s : St} {id who amount : Nat}
    (h : can_increase s id who amount = .Success) :
    ∃ d, mget s.asset id = some d := by
  unfold can_increase at h
  cases hm : mget s.asset id with
  | none => rw [hm] at h; exact absurd h (by simp)
  | some d => exact ⟨d, rfl⟩

theorem can_decrease_some {s : St} {id who amount : Nat}
    (h : can_decrease s id who amount = .Success) :
    ∃ d, mget s.asset id = some d := by
  unfold can_decrease at h
  cases hm : mget s.asset id with
  | none => rw [hm] at h; exact absurd h (by simp)
  | some d => exact ⟨d, rfl⟩

/-! ### Claims C5 and C6: the pre-checks agree with the spec -/

/-- Claim C5: for every asset id, account, and amount, the deposit pre-check
`can_increase` is a pure read of the state that agrees with the spec's
`check_deposit`, and it returns `UnknownAsset` exactly when no asset record
exists. -/
theorem claim5_can_increase_spec :
    ∀ (s : St) (id who amount : Nat),
      can_increase s id who amount = check_deposit_spec s id who amount ∧
      (can_increase s id who amount = .UnknownAsset ↔ mget s.asset id = none) := by
  intro s id who amount
  unfold can_increase check_deposit_spec
  cases hm : mget s.asset id with
  | none => simp
  | some d =>
    constructor
    · simp only [checkedAdd256_eq_none, checkedAdd32_eq_none]
    · constructor
      · intro h
        exfalso
        revert h
        by_cases h1 : checkedAdd256 d.supply amount = none <;>
          by_cases h2 : balance s id who = 0 ∧ checkedAdd32 d.accounts 1 = none <;>
          by_cases h3 : checkedAdd256 (balance s id who) amount = none <;>
          simp [h1, h2, h3]
      · intro h
        simp at h

/-- Claim C6: for every asset id, account, and amount, the withdraw
pre-check `can_decrease` is a pure read of the state that agrees with the
spec's `check_withdraw`, and it returns `UnknownAsset` exactly when no asset
record exists. -/
theorem claim6_can_decrease_spec :
    ∀ (s : St) (id who amount : Nat),
      can_decrease s id who amount = check_withdraw_spec s id who amount ∧
      (can_decrease s id who amount = .UnknownAsset ↔ mget s.asset id = none) := by
  intro s id who amount
  unfold can_decrease check_withdraw_spec
  cases hm : mget s.asset id with
  | none => simp
  | some d =>
    constructor
    · simp only [checkedSub256_eq_none]
    · constructor
      · intro h
        exfalso
        revert h
        by_cases h1 : checkedSub256 d.supply amount = none <;>
          by_cases h2 : checkedSub256 (balance s id who) amount = none <;>
          simp [h1, h2]
      · intro h
        simp at h

/-! ### Claim C7: transfer on an unknown asset, and zero-amount transfer -/

/-- Claim C7: `do_transfer` fails with `UnknownAsset` whenever no record
exists for the asset, even when the amount is zero; and when a record exists
and the amount is zero it returns success, leaves the Asset and Account
storage unchanged, and emits the `Transferred` event. -/
theorem claim7_transfer_unknown_and_zero :
    ∀ (s : St) (id source dest amount : Nat),
      (mget s.asset id = none →
        do_transfer s id source dest amount = (s, .error (.Token .UnknownAsset))) ∧
      (∀ d, mget s.asset id = some d →
        do_transfer s id source dest 0 =
          (emit s (.Transferred id source dest 0), .ok ())) := by
  intro s id source dest amount
  constructor
  · intro h
    simp [do_transfer, h]
  · intro d h
    simp [do_transfer, h]

theorem claim7_witness :
    do_transfer St.empty 0 1 2 0 = (St.empty, .error (.Token .UnknownAsset)) ∧
    do_transfer stCreated 0 1 2 0 =
      (emit stCreated (.Transferred 0 1 2 0), .ok ()) :=
  ⟨(claim7_transfer_unknown_and_zero St.empty 0 1 2 0).1 (by decide),
   (claim7_transfer_unknown_and_zero stCreated 0 1 2 0).2 ⟨0, 0⟩ (by decide)⟩

/-! ### Claim C10: `set_total_issuance` on an unknown asset -/

/-- Claim C10: for every asset id with no record and every amount,
`set_total_issuance` is a no-op: it does not create an asset record and
leaves all storage unchanged. -/
theorem claim10_set_total_issuance_noop :
    ∀ (s : St) (id amount : Nat),
      mget s.asset id = none → set_total_issuance s id amount = s := by
  intro s id amount h
  unfold set_total_issuance
  rw [h]

theorem claim10_witness :
    mget St.empty.asset 0 = none ∧ set_total_issuance St.empty 0 7 = St.empty :=
  ⟨by decide, claim10_set_total_issuance_noop St.empty 0 7 (by decide)⟩

/-! ### Claim C3: the Debt/Credit finalizers -/

/-- Claim C3 as stated is false: the finalizers adjust the issuance through
`set_total_issuance`, which is a no-op when the asset has no record, so for
an unknown asset the `Debt` finalizer does not increase the issuance by the
`Debt`'s amount.  Refuted at the empty state with asset `0` and amount `1`. -/
theorem claim3_counterexample :
    ¬ (∀ (s : St) (asset amount : Nat),
        supply (IncreaseIssuance_handle s asset amount) asset =
          supply s asset + amount ∧
        supply s asset =
          supply (DecreaseIssuance_handle s asset amount) asset + amount) := by
  intro h
  have h1 := (h St.empty 0 1).1
  exact absurd h1 (by decide)

/-- Claim C3, amended: provided the asset has a record, and the addition
does not saturate (`total_issuance + amount < 2 ^ 256`), dropping a `Debt`
unconsumed increases the asset's total issuance by exactly the `Debt`'s
amount; provided the asset has a record and `amount ≤ total_issuance`,
dropping a `Credit` unconsumed decreases the total issuance by exactly the
`Credit`'s amount. -/
theorem claim3_finalizers :
    ∀ (s : St) (asset amount : Nat) (d : AssetDetails),
      mget s.asset asset = some d →
      (supply s asset + amount < U256Mod →
        supply (IncreaseIssuance_handle s asset amount) asset =
          supply s asset + amount) ∧
      (amount ≤ supply s asset →
        supply s asset =
          supply (DecreaseIssuance_handle s asset amount) asset + amount) := by
  intro s asset amount d hm
  constructor
  · intro hbound
    have key : supply (IncreaseIssuance_handle s asset amount) asset =
        saturatingAdd256 (supply s asset) amount := by
      unfold IncreaseIssuance_handle total_issuance set_total_issuance
      rw [hm]
      simp [supply, hm, mget_mput_self]
    rw [key]
    exact saturatingAdd256_eq hbound
  · intro hle
    have key : supply (DecreaseIssuance_handle s asset amount) asset =
        saturatingSub256 (supply s asset) amount := by
      unfold DecreaseIssuance_handle total_issuance set_total_issuance
      rw [hm]
      simp [supply, hm, mget_mput_self]
    rw [key]
    unfold saturatingSub256
    omega

theorem claim3_witness :
    (supply (IncreaseIssuance_handle stMinted 0 2) 0 = supply stMinted 0 + 2) ∧
    (supply stMinted 0 = supply (DecreaseIssuance_handle stMinted 0 2) 0 + 2) :=
  ⟨(claim3_finalizers stMinted 0 2 ⟨5, 1⟩ (by decide)).1 (by decide),
   (claim3_finalizers stMinted 0 2 ⟨5, 1⟩ (by decide)).2 (by decide)⟩

/-! ### Claim C8: self-transfer -/

/-- Claim C8 as stated is false: a self-transfer on an asset with no record
fails with `UnknownAsset` and emits no event, so it does not "always emit
the `Transferred` event".  Refuted at the empty state. -/
theorem claim8_counterexample :
    ¬ (∀ (s : St) (id a amount : Nat),
        balance (do_transfer s id a a amount).1 id a = balance s id a ∧
        (do_transfer s id a a amount).1.events =
          s.events ++ [Event.Transferred id a a amount]) := by
  intro h
  have h2 := (h St.empty 0 7 1).2
  exact absurd h2 (by decide)

/-- Claim C8, amended: for every asset id that has a record, every account
`a` and every amount, the self-transfer `do_transfer s id a a amount`
succeeds, never changes `balance(id, a)`, and always emits the
`Transferred` event. -/
theorem claim8_self_transfer :
    ∀ (s : St) (id a amount : Nat) (d : AssetDetails),
      mget s.asset id = some d →
      (do_transfer s id a a amount).2 = .ok () ∧
      balance (do_transfer s id a a amount).1 id a = balance s id a ∧
      (do_transfer s id a a amount).1.events =
        s.events ++ [Event.Transferred id a a amount] := by
  intro s id a amount d hm
  by_cases h0 : amount = 0
  · subst h0
    simp [do_transfer, hm, emit, balance]
  · simp [do_transfer, hm, h0, emit, balance]

theorem claim8_witness :
    (do_transfer stMinted 0 9 9 3).2 = .ok () ∧
    balance (do_transfer stMinted 0 9 9 3).1 0 9 = balance stMinted 0 9 ∧
    (do_transfer stMinted 0 9 9 3).1.events =
      stMinted.events ++ [Event.Transferred 0 9 9 3] :=
  claim8_self_transfer stMinted 0 9 3 ⟨5, 1⟩ (by decide)

/-! ### Shape lemmas: what each operation does on success, and that every
error path returns the incoming state -/

theorem increase_balance_ok {s s' : St} {id who amount : Nat}
    {check : AssetDetails → Except DispatchError AssetDetails} {u : Unit}
    (h : increase_balance s id who amount check = (s', .ok u)) :
    (amount = 0 ∧ s' = s) ∨
    (amount ≠ 0 ∧ ∃ details details1 details2,
      mget s.asset id = some details ∧
      can_increase s id who amount = .Success ∧
      check details = .ok details1 ∧
      (if balance s id who = 0 then new_account details1 else .ok details1) =
        .ok details2 ∧
      s' = { s with
             asset := mput s.asset id details2,
             account := mput s.account (id, who)
               (saturatingAdd256 (balance s id who) amount) }) := by
  unfold increase_balance at h
  by_cases h0 : amount = 0
  · rw [if_pos h0] at h
    simp only [Prod.mk.injEq] at h
    exact Or.inl ⟨h0, h.1.symm⟩
  · rw [if_neg h0] at h
    right
    refine ⟨h0, ?_⟩
    split at h
    · simp at h
    · next uu hc =>
      split at h
      · simp at h
      · next details hm =>
        split at h
        · simp at h
        · next details1 hchk =>
          split at h
          · simp at h
          · next details2 hacct =>
            simp only [Prod.mk.injEq] at h
            exact ⟨details, details1, details2,
              hm, depositConsequence_intoResult_ok hc, hchk, hacct, h.1.symm⟩

theorem increase_balance_error_shape {s s' : St} {id who amount : Nat}
    {check : AssetDetails → Except DispatchError AssetDetails} {e : DispatchError}
    (h : increase_balance s id who amount check = (s', .error e)) : s' = s := by
  unfold increase_balance at h
  by_cases h0 : amount = 0
  · rw [if_pos h0] at h
    simp at h
  · rw [if_neg h0] at h
    split at h
    · simp only [Prod.mk.injEq] at h
      exact h.1.symm
    · split at h
      · simp only [Prod.mk.injEq] at h
        exact h.1.symm
      · split at h
        · simp only [Prod.mk.injEq] at h
          exact h.1.symm
        · split at h
          · simp only [Prod.mk.injEq] at h
            exact h.1.symm
          · simp at h

theorem decrease_balance_ok {s s' : St} {id who amount : Nat}
    {check : AssetDetails → Except DispatchError AssetDetails} {r : Nat}
    (h : decrease_balance s id who amount check = (s', .ok r)) :
    (amount = 0 ∧ s' = s ∧ r = amount) ∨
    (amount ≠ 0 ∧ r = amount ∧ ∃ details details1,
      mget s.asset id = some details ∧
      can_decrease s id who amount = .Success ∧
      check details = .ok details1 ∧
      ((saturatingSub256 (balance s id who) amount = 0 ∧
        s' = { s with
               asset := mput s.asset id
                 { details1 with accounts := saturatingSub32 details1.accounts 1 },
               account := mdel s.account (id, who) }) ∨
       (saturatingSub256 (balance s id who) amount ≠ 0 ∧
        s' = { s with
               asset := mput s.asset id details1,
               account := mput s.account (id, who)
                 (saturatingSub256 (balance s id who) amount) }))) := by
  unfold decrease_balance at h
  by_cases h0 : amount = 0
  · rw [if_pos h0] at h
    simp only [Prod.mk.injEq] at h
    exact Or.inl ⟨h0, h.1.symm, by simpa using h.2.symm⟩
  · rw [if_neg h0] at h
    right
    split at h
    · simp at h
    · next uu hc =>
      split at h
      · simp at h
      · next details hm =>
        split at h
        · simp at h
        · next details1 hchk =>
          split at h
          · next hz =>
            split at h
            · simp at h
            · next details2 hdead =>
              simp only [dead_account, Except.ok.injEq] at hdead
              simp only [Prod.mk.injEq] at h
              refine ⟨h0, by simpa using h.2.symm, details, details1, hm,
                withdrawConsequence_intoResult_ok hc, hchk,
                Or.inl ⟨hz, ?_⟩⟩
              rw [← h.1, ← hdead]
          · next hz =>
            simp only [Prod.mk.injEq] at h
            exact ⟨h0, by simpa using h.2.symm, details, details1, hm,
              withdrawConsequence_intoResult_ok hc, hchk,
              Or.inr ⟨hz, h.1.symm⟩⟩

theorem decrease_balance_error_shape {s s' : St} {id who amount : Nat}
    {check : AssetDetails → Except DispatchError AssetDetails} {e : DispatchError}
    (h : decrease_balance s id who amount check = (s', .error e)) : s' = s := by
  unfold decrease_balance at h
  by_cases h0 : amount = 0
  · rw [if_pos h0] at h
    simp at h
  · rw [if_neg h0] at h
    split at h
    · simp only [Prod.mk.injEq] at h
      exact h.1.symm
    · split at h
      · simp only [Prod.mk.injEq] at h
        exact h.1.symm
      · split at h
        · simp only [Prod.mk.injEq] at h
          exact h.1.symm
        · split at h
          · split at h
            · next hdead =>
              simp [dead_account] at hdead
            · simp at h
          · simp at h

theorem do_create_ok {s s' : St} {id : Nat} {u : Unit}
    (h : do_create s id = (s', .ok u)) :
    mget s.asset id = none ∧
    s' = emit { s with asset := mput s.asset id ⟨0, 0⟩ } (.Created id) := by
  unfold do_create at h
  split at h
  · simp at h
  · next hns =>
    simp only [Prod.mk.injEq] at h
    exact ⟨Option.not_isSome_iff_eq_none.mp hns, h.1.symm⟩

theorem do_create_error_shape {s s' : St} {id : Nat} {e : DispatchError}
    (h : do_create s id = (s', .error e)) : s' = s := by
  unfold do_create at h
  split at h
  · simp only [Prod.mk.injEq] at h
    exact h.1.symm
  · simp at h

theorem do_issue_ok {s s' : St} {id who amount : Nat} {u : Unit}
    (h : do_issue s id who amount = (s', .ok u)) :
    ∃ s1, increase_balance s id who amount
        (fun d => .ok { d with supply := saturatingAdd256 d.supply amount }) =
          (s1, .ok ()) ∧
      s' = emit s1 (.Issued id who amount) := by
  unfold do_issue at h
  split at h
  · simp at h
  · next s1 uu hinc =>
    simp only [Prod.mk.injEq] at h
    exact ⟨s1, hinc, h.1.symm⟩

theorem do_issue_error_shape {s s' : St} {id who amount : Nat} {e : DispatchError}
    (h : do_issue s id who amount = (s', .error e)) : s' = s := by
  unfold do_issue at h
  split at h
  · next s1 e1 hinc =>
    simp only [Prod.mk.injEq] at h
    rw [← h.1]
    exact increase_balance_error_shape hinc
  · simp at h

theorem do_burn_ok {s s' : St} {id who amount : Nat} {u : Unit}
    (h : do_burn s id who amount = (s', .ok u)) :
    ∃ s1, decrease_balance s id who amount
        (fun d => .ok { d with supply := saturatingSub256 d.supply amount }) =
          (s1, .ok amount) ∧
      s' = emit s1 (.Burned id who amount) := by
  unfold do_burn at h
  split at h
  · simp at h
  · next s1 r hdec =>
    simp only [Prod.mk.injEq] at h
    have hr : r = amount := by
      rcases decrease_balance_ok hdec with ⟨_, _, hr⟩ | ⟨_, hr, _⟩ <;> exact hr
    subst hr
    exact ⟨s1, hdec, h.1.symm⟩

theorem do_burn_error_shape {s s' : St} {id who amount : Nat} {e : DispatchError}
    (h : do_burn s id who amount = (s', .error e)) : s' = s := by
  unfold do_burn at h
  split at h
  · next s1 e1 hdec =>
    simp only [Prod.mk.injEq] at h
    rw [← h.1]
    exact decrease_balance_error_shape hdec
  · simp at h

theorem do_transfer_ok {s s' : St} {id source dest amount : Nat} {u : Unit}
    (h : do_transfer s id source dest amount = (s', .ok u)) :
    ∃ details, mget s.asset id = some details ∧
    ((amount = 0 ∧ s' = emit s (.Transferred id source dest amount)) ∨
     (amount ≠ 0 ∧ source = dest ∧
       s' = emit { s with asset := mput s.asset id details }
         (.Transferred id source dest amount)) ∨
     (amount ≠ 0 ∧ source ≠ dest ∧
       can_decrease s id source amount = .Success ∧
       can_increase s id dest amount = .Success ∧
       ∃ details1,
         (if balance s id dest = 0 then new_account details else .ok details) =
           .ok details1 ∧
         ((saturatingSub256 (balance s id source) amount = 0 ∧
           s' = emit { s with
               asset := mput s.asset id
                 { details1 with accounts := saturatingSub32 details1.accounts 1 },
               account := mdel (mput s.account (id, dest)
                 (saturatingAdd256 (balance s id dest) amount)) (id, source) }
             (.Transferred id source dest amount)) ∨
          (saturatingSub256 (balance s id source) amount ≠ 0 ∧
           s' = emit { s with
               asset := mput s.asset id details1,
               account := mput (mput s.account (id, dest)
                 (saturatingAdd256 (balance s id dest) amount)) (id, source)
                 (saturatingSub256 (balance s id source) amount) }
             (.Transferred id source dest amount))))) := by
  unfold do_transfer at h
  split at h
  · simp at h
  · next hsome =>
    rw [Bool.not_eq_false, Option.isSome_iff_exists] at hsome
    obtain ⟨details0, hm0⟩ := hsome
    by_cases h0 : amount = 0
    · rw [if_pos h0] at h
      simp only [Prod.mk.injEq] at h
      exact ⟨details0, hm0, Or.inl ⟨h0, h.1.symm⟩⟩
    · rw [if_neg h0] at h
      split at h
      · next hm => rw [hm0] at hm; exact absurd hm (by simp)
      · next details hm =>
        by_cases hsd : source = dest
        · rw [if_pos hsd] at h
          simp only [Prod.mk.injEq] at h
          exact ⟨details, hm, Or.inr (Or.inl ⟨h0, hsd, h.1.symm⟩)⟩
        · rw [if_neg hsd] at h
          split at h
          · simp at h
          · next u1 hcd =>
            split at h
            · simp at h
            · next u2 hci =>
              split at h
              · simp at h
              · next details1 hacct =>
                split at h
                · next hz =>
                  split at h
                  · simp at h
                  · next details2 hdead =>
                    simp only [dead_account, Except.ok.injEq] at hdead
                    simp only [Prod.mk.injEq] at h
                    refine ⟨details, hm, Or.inr (Or.inr ⟨h0, hsd,
                      withdrawConsequence_intoResult_ok hcd,
                      depositConsequence_intoResult_ok hci,
                      details1, hacct, Or.inl ⟨hz, ?_⟩⟩)⟩
                    rw [← h.1, ← hdead]
                · next hz =>
                  simp only [Prod.mk.injEq] at h
                  exact ⟨details, hm, Or.inr (Or.inr ⟨h0, hsd,
                    withdrawConsequence_intoResult_ok hcd,
                    depositConsequence_intoResult_ok hci,
                    details1, hacct, Or.inr ⟨hz, h.1.symm⟩⟩)⟩

theorem do_transfer_error_shape {s s' : St} {id source dest amount : Nat}
    {e : DispatchError}
    (h : do_transfer s id source dest amount = (s', .error e)) : s' = s := by
  unfold do_transfer at h
  split at h
  · simp only [Prod.mk.injEq] at h
    exact h.1.symm
  · by_cases h0 : amount = 0
    · rw [if_pos h0] at h
      simp at h
    · rw [if_neg h0] at h
      split at h
      · simp only [Prod.mk.injEq] at h
        exact h.1.symm
      · split at h
        · simp at h
        · split at h
          · simp only [Prod.mk.injEq] at h
            exact h.1.symm
          · split at h
            · simp only [Prod.mk.injEq] at h
              exact h.1.symm
            · split at h
              · simp only [Prod.mk.injEq] at h
                exact h.1.symm
              · split at h
                · split at h
                  · next hdead =>
                    simp [dead_account] at hdead
                  · simp at h
                · simp at h

/-- What the account-creation branch of a mutation does to the asset
record: the supply is untouched and the reference count either gains
exactly one (fresh account) or is untouched. -/
theorem acct_branch {details1 details2 : AssetDetails} {c : Prop} [Decidable c]
    (h : (if c then new_account details1 else .ok details1) = .ok details2) :
    details2.supply = details1.supply ∧
    ((c ∧ details2.accounts = details1.accounts + 1) ∨
     (¬c ∧ details2 = details1)) := by
  split at h
  · next hc =>
    unfold new_account at h
    cases hck : checkedAdd32 details1.accounts 1 with
    | none => rw [hck] at h; simp at h
    | some n =>
      rw [hck] at h
      simp only [Except.ok.injEq] at h
      have hn : n = details1.accounts + 1 := by
        unfold checkedAdd32 at hck
        split at hck
        · simpa using hck.symm
        · simp at hck
      subst hn
      exact ⟨by rw [← h], Or.inl ⟨hc, by rw [← h]⟩⟩
  · next hc =>
    simp only [Except.ok.injEq] at h
    exact ⟨by rw [← h], Or.inr ⟨hc, h.symm⟩⟩

/-! ### Claim C2: a failing call leaves storage unchanged -/

/-- Claim C2: every public mutating operation (`do_create`, `do_issue`,
`do_burn`, `do_transfer`, `increase_balance`, `decrease_balance`) that
returns an error leaves the state — in particular the `Asset` map and the
`Account` double map — completely unchanged; no partial mutation is ever
visible after a failed call. -/
theorem claim2_error_frame :
    (∀ (s : St) (id : Nat) (e : DispatchError),
       (do_create s id).2 = .error e → (do_create s id).1 = s) ∧
    (∀ (s : St) (id who amount : Nat) (e : DispatchError),
       (do_issue s id who amount).2 = .error e → (do_issue s id who amount).1 = s) ∧
    (∀ (s : St) (id who amount : Nat) (e : DispatchError),
       (do_burn s id who amount).2 = .error e → (do_burn s id who amount).1 = s) ∧
    (∀ (s : St) (id source dest amount : Nat) (e : DispatchError),
       (do_transfer s id source dest amount).2 = .error e →
         (do_transfer s id source dest amount).1 = s) ∧
    (∀ (s : St) (id who amount : Nat)
       (check : AssetDetails → Except DispatchError AssetDetails) (e : DispatchError),
       (increase_balance s id who amount check).2 = .error e →
         (increase_balance s id who amount check).1 = s) ∧
    (∀ (s : St) (id who amount : Nat)
       (check : AssetDetails → Except DispatchError AssetDetails) (e : DispatchError),
       (decrease_balance s id who amount check).2 = .error e →
         (decrease_balance s id who amount check).1 = s) := by
  refine ⟨?_, ?_, ?_, ?_, ?_, ?_⟩
  · intro s id e h
    rcases hres : do_create s id with ⟨s1, r⟩
    rw [hres] at h
    cases h
    exact do_create_error_shape hres
  · intro s id who amount e h
    rcases hres : do_issue s id who amount with ⟨s1, r⟩
    rw [hres] at h
    cases h
    exact do_issue_error_shape hres
  · intro s id who amount e h
    rcases hres : do_burn s id who amount with ⟨s1, r⟩
    rw [hres] at h
    cases h
    exact do_burn_error_shape hres
  · intro s id source dest amount e h
    rcases hres : do_transfer s id source dest amount with ⟨s1, r⟩
    rw [hres] at h
    cases h
    exact do_transfer_error_shape hres
  · intro s id who amount check e h
    rcases hres : increase_balance s id who amount check with ⟨s1, r⟩
    rw [hres] at h
    cases h
    exact increase_balance_error_shape hres
  · intro s id who amount check e h
    rcases hres : decrease_balance s id who amount check with ⟨s1, r⟩
    rw [hres] at h
    cases h
    exact decrease_balance_error_shape hres

theorem claim2_witness :
    (do_create stCreated 0).1 = stCreated ∧
    (do_issue St.empty 0 1 1).1 = St.empty ∧
    (do_burn St.empty 0 1 1).1 = St.empty ∧
    (do_transfer St.empty 0 1 2 1).1 = St.empty ∧
    (increase_balance St.empty 0 1 1 (fun d => .ok d)).1 = St.empty ∧
    (decrease_balance St.empty 0 1 1 (fun d => .ok d)).1 = St.empty :=
  ⟨claim2_error_frame.1 stCreated 0 .InUse rfl,
   claim2_error_frame.2.1 St.empty 0 1 1 (.Token .UnknownAsset) rfl,
   claim2_error_frame.2.2.1 St.empty 0 1 1 (.Token .UnknownAsset) rfl,
   claim2_error_frame.2.2.2.1 St.empty 0 1 2 1 (.Token .UnknownAsset) rfl,
   claim2_error_frame.2.2.2.2.1 St.empty 0 1 1 (fun d => .ok d)
     (.Token .UnknownAsset) rfl,
   claim2_error_frame.2.2.2.2.2 St.empty 0 1 1 (fun d => .ok d)
     (.Token .UnknownAsset) rfl⟩

/-! ### Claim C9: the saturating issuance arithmetic never saturates -/

/-- Claim C9: because `can_increase` has verified that
`total_issuance + amount` does not overflow and `can_decrease` has verified
that `total_issuance - amount` does not underflow, a successful `do_issue`
leaves the supply equal to the exact sum and a successful `do_burn` leaves
it equal to the exact difference. -/
theorem claim9_exact_issuance :
    ∀ (s s' : St) (id who amount : Nat),
      (do_issue s id who amount = (s', .ok ()) →
        supply s' id = supply s id + amount) ∧
      (do_burn s id who amount = (s', .ok ()) →
        amount ≤ supply s id ∧ supply s id = supply s' id + amount) := by
  intro s s' id who amount
  constructor
  · intro h
    obtain ⟨s1, hinc, hs'⟩ := do_issue_ok h
    subst hs'
    rcases increase_balance_ok hinc with ⟨h0, h1⟩ | ⟨h0, details, details1, details2,
        hm, hsucc, hchk, hacct, h1⟩
    · subst h1
      simp [emit, supply, h0]
    · simp only [Except.ok.injEq] at hchk
      have hd2 := acct_branch hacct
      have hbound := (can_increase_success hm hsucc).1
      have hsup : supply s id = details.supply := by simp [supply, hm]
      subst h1
      have : supply (emit { s with
          asset := mput s.asset id details2,
          account := mput s.account (id, who)
            (saturatingAdd256 (balance s id who) amount) } (.Issued id who amount)) id
          = details2.supply := by
        simp [emit, supply, mget_mput_self]
      rw [this, hd2.1, ← hchk]
      simp only []
      rw [hsup, saturatingAdd256_eq hbound]
  · intro h
    obtain ⟨s1, hdec, hs'⟩ := do_burn_ok h
    subst hs'
    rcases decrease_balance_ok hdec with ⟨h0, h1, _⟩ | ⟨h0, _, details, details1,
        hm, hsucc, hchk, hbr⟩
    · subst h1
      simp [emit, supply, h0]
    · simp only [Except.ok.injEq] at hchk
      have hle := (can_decrease_success hm hsucc).1
      have hsup : supply s id = details.supply := by simp [supply, hm]
      have hsup1 : details1.supply = saturatingSub256 details.supply amount := by
        rw [← hchk]
      rcases hbr with ⟨hz, h1⟩ | ⟨hz, h1⟩
      · subst h1
        have hss : supply (emit { s with
            asset := mput s.asset id
              { details1 with accounts := saturatingSub32 details1.accounts 1 },
            account := mdel s.account (id, who) } (.Burned id who amount)) id
            = details1.supply := by
          simp [emit, supply, mget_mput_self]
        rw [hss, hsup1, hsup]
        unfold saturatingSub256
        omega
      · subst h1
        have hss : supply (emit { s with
            asset := mput s.asset id details1,
            account := mput s.account (id, who)
              (saturatingSub256 (balance s id who) amount) }
            (.Burned id who amount)) id = details1.supply := by
          simp [emit, supply, mget_mput_self]
        rw [hss, hsup1, hsup]
        unfold saturatingSub256
        omega

theorem claim9_witness :
    (supply stMinted 0 = supply stCreated 0 + 5) ∧
    (2 ≤ supply stMinted 0 ∧ supply stMinted 0 = supply stBurned 0 + 2) :=
  ⟨(claim9_exact_issuance stCreated stMinted 0 1 5).1 rfl,
   (claim9_exact_issuance stMinted stBurned 0 1 2).2 rfl⟩

/-! ### Preservation of the storage invariant -/

theorem inv_emit (s : St) (e : Event) : Inv (emit s e) ↔ Inv s := Iff.rfl

/-- Crediting `v > 0` on top of the current (default-zero) balance adds `v`
to the asset's balance sum. -/
theorem sumFor_bump (m : List ((Nat × Nat) × Nat)) (k : Nat × Nat) (b0 v id : Nat)
    (hn : NodupKeys m) (hb0 : (mget m k).getD 0 = b0) :
    sumFor (mput m k (b0 + v)) id = sumFor m id + (if k.1 = id then v else 0) := by
  cases hb : mget m k with
  | none =>
    rw [hb] at hb0
    simp only [Option.getD_none] at hb0
    subst hb0
    rw [Nat.zero_add, sumFor_mput_none m k v id hb]
  | some b =>
    rw [hb] at hb0
    simp only [Option.getD_some] at hb0
    subst hb0
    by_cases hk : k.1 = id
    · have h2 := sumFor_mput_some m k b (b + v) id hn hb
      simp [hk] at h2 ⊢
      omega
    · rw [sumFor_mput_ne m k _ id hk]
      simp [hk]

/-- Crediting `v > 0` on top of the current (default-zero) balance adds one
to the asset's positive-account count exactly when the old balance was
zero. -/
theorem cntFor_bump (m : List ((Nat × Nat) × Nat)) (k : Nat × Nat) (b0 v id : Nat)
    (hn : NodupKeys m) (hv : 0 < v) (hb0 : (mget m k).getD 0 = b0) :
    cntFor (mput m k (b0 + v)) id =
      cntFor m id + (if k.1 = id ∧ b0 = 0 then 1 else 0) := by
  cases hb : mget m k with
  | none =>
    rw [hb] at hb0
    simp only [Option.getD_none] at hb0
    subst hb0
    rw [Nat.zero_add, cntFor_mput_none m k v id hb]
    by_cases hk : k.1 = id
    · simp [hk, hv]
    · simp [hk]
  | some b =>
    rw [hb] at hb0
    simp only [Option.getD_some] at hb0
    subst hb0
    by_cases hk : k.1 = id
    · have h2 := cntFor_mput_some m k b (b + v) id hn hb
      by_cases hz : b = 0
      · subst hz
        simp [hk, hv] at h2 ⊢
        omega
      · have hbp : 0 < b := Nat.pos_of_ne_zero hz
        simp [hk, hbp, hz, Nat.lt_of_lt_of_le hbp (Nat.le_add_right b v)] at h2 ⊢
        omega
    · rw [cntFor_mput_ne m k _ id hk]
      simp [hk]

theorem do_create_inv {s s' : St} {id : Nat} {u : Unit}
    (h : do_create s id = (s', .ok u)) (hinv : Inv s) : Inv s' := by
  obtain ⟨hA, hC, hO, hS, hN⟩ := hinv
  obtain ⟨hm, hs'⟩ := do_create_ok h
  subst hs'
  rw [inv_emit]
  have hnone : ∀ w, mget s.account (id, w) = none := by
    intro w
    cases hb : mget s.account (id, w) with
    | none => rfl
    | some b =>
      have := hO id w b hb
      rw [hm] at this
      simp at this
  refine ⟨nodup_mput _ _ _ hA, hC, ?_, ?_, ?_⟩
  · intro id' who' b hb
    by_cases hid : id' = id
    · subst hid
      simp [mget_mput_self]
    · rw [mget_mput_ne s.asset id id' _ (fun he => hid he.symm)]
      exact hO id' who' b hb
  · intro id' d hd
    by_cases hid : id' = id
    · subst hid
      rw [mget_mput_self] at hd
      cases hd
      exact (sumFor_eq_zero s.account _ hnone).symm
    · rw [mget_mput_ne s.asset id id' _ (fun he => hid he.symm)] at hd
      exact hS id' d hd
  · intro id' d hd
    by_cases hid : id' = id
    · subst hid
      rw [mget_mput_self] at hd
      cases hd
      exact (cntFor_eq_zero s.account _ hnone).symm
    · rw [mget_mput_ne s.asset id id' _ (fun he => hid he.symm)] at hd
      exact hN id' d hd

theorem do_issue_inv {s s' : St} {id who amount : Nat} {u : Unit}
    (h : do_issue s id who amount = (s', .ok u)) (hinv : Inv s) : Inv s' := by
  obtain ⟨hA, hC, hO, hS, hN⟩ := hinv
  obtain ⟨s1, hinc, hs'⟩ := do_issue_ok h
  subst hs'
  rw [inv_emit]
  rcases increase_balance_ok hinc with ⟨h0, h1⟩ | ⟨h0, details, details1, details2,
      hm, hsucc, hchk, hacct, h1⟩
  · subst h1
    exact ⟨hA, hC, hO, hS, hN⟩
  · have hsucc' := can_increase_success hm hsucc
    simp only [Except.ok.injEq] at hchk
    have hd2 := acct_branch hacct
    rw [saturatingAdd256_eq hsucc'.2.2] at h1
    subst h1
    have hsup1 : details1.supply = details.supply + amount := by
      rw [← hchk]
      exact saturatingAdd256_eq hsucc'.1
    have hacc1 : details1.accounts = details.accounts := by
      rw [← hchk]
    refine ⟨nodup_mput _ _ _ hA, nodup_mput _ _ _ hC, ?_, ?_, ?_⟩
    · intro id' who' b hb
      by_cases hid : id = id'
      · subst hid
        simp [mget_mput_self]
      · rw [mget_mput_ne s.account (id, who) (id', who') _
            (fun hkey => hid (congrArg Prod.fst hkey))] at hb
        rw [mget_mput_ne s.asset id id' _ hid]
        exact hO id' who' b hb
    · intro id' d hd
      by_cases hid : id = id'
      · subst hid
        rw [mget_mput_self] at hd
        cases hd
        rw [sumFor_bump s.account (id, who) (balance s id who) amount id hC rfl]
        rw [hd2.1, hsup1, hS id details hm]
        simp
      · rw [mget_mput_ne s.asset id id' _ hid] at hd
        rw [sumFor_mput_ne s.account (id, who) _ id' hid]
        exact hS id' d hd
    · intro id' d hd
      by_cases hid : id = id'
      · subst hid
        rw [mget_mput_self] at hd
        cases hd
        rw [cntFor_bump s.account (id, who) (balance s id who) amount id hC
          (Nat.pos_of_ne_zero h0) rfl]
        rcases hd2.2 with ⟨hbz, hacc2⟩ | ⟨hbz, heq⟩
        · rw [if_pos ⟨rfl, hbz⟩, hacc2, hacc1, hN id details hm]
        · rw [if_neg (by simp [hbz]), heq, hacc1, hN id details hm]
          simp
      · rw [mget_mput_ne s.asset id id' _ hid] at hd
        rw [cntFor_mput_ne s.account (id, who) _ id' hid]
        exact hN id' d hd

theorem do_burn_inv {s s' : St} {id who amount : Nat} {u : Unit}
    (h : do_burn s id who amount = (s', .ok u)) (hinv : Inv s) : Inv s' := by
  obtain ⟨hA, hC, hO, hS, hN⟩ := hinv
  obtain ⟨s1, hdec, hs'⟩ := do_burn_ok h
  subst hs'
  rw [inv_emit]
  rcases decrease_balance_ok hdec with ⟨h0, h1, _⟩ | ⟨h0, _, details, details1,
      hm, hsucc, hchk, hbr⟩
  · subst h1
    exact ⟨hA, hC, hO, hS, hN⟩
  · have hle := can_decrease_success hm hsucc
    simp only [Except.ok.injEq] at hchk
    have hsup1 : details1.supply = details.supply - amount := by
      rw [← hchk]
      simp [saturatingSub256]
    have hacc1 : details1.accounts = details.accounts := by
      rw [← hchk]
    have hbpos : 0 < balance s id who :=
      Nat.lt_of_lt_of_le (Nat.pos_of_ne_zero h0) hle.2
    have hsome : mget s.account (id, who) = some (balance s id who) := by
      cases hb : mget s.account (id, who) with
      | none => simp [balance, hb] at hbpos
      | some b => simp [balance, hb]
    rcases hbr with ⟨hz, h1⟩ | ⟨hz, h1⟩
    · -- the balance is wiped out: the entry is removed and the count drops
      simp only [saturatingSub256] at hz
      subst h1
      refine ⟨nodup_mput _ _ _ hA, nodup_mdel _ _ hC, ?_, ?_, ?_⟩
      · intro id' who' b' hb'
        by_cases hid : id = id'
        · subst hid
          simp [mget_mput_self]
        · rw [mget_mdel_ne s.account (id, who) (id', who')
              (fun hkey => hid (congrArg Prod.fst hkey))] at hb'
          rw [mget_mput_ne s.asset id id' _ hid]
          exact hO id' who' b' hb'
      · intro id' d hd
        by_cases hid : id = id'
        · subst hid
          rw [mget_mput_self] at hd
          cases hd
          have hdel := sumFor_mdel s.account (id, who) (balance s id who) id hC hsome
          rw [if_pos rfl] at hdel
          have hsum := hS id details hm
          simp only [saturatingSub32]
          show details1.supply = sumFor (mdel s.account (id, who)) id
          rw [hsup1]
          omega
        · rw [mget_mput_ne s.asset id id' _ hid] at hd
          have hdel := sumFor_mdel s.account (id, who) (balance s id who) id' hC hsome
          rw [if_neg hid] at hdel
          simp only [Nat.add_zero] at hdel
          show d.supply = sumFor (mdel s.account (id, who)) id'
          rw [hdel]
          exact hS id' d hd
      · intro id' d hd
        by_cases hid : id = id'
        · subst hid
          rw [mget_mput_self] at hd
          cases hd
          have hdel := cntFor_mdel s.account (id, who) (balance s id who) id hC hsome
          rw [if_pos ⟨rfl, hbpos⟩] at hdel
          have hcnt := hN id details hm
          simp only [saturatingSub32]
          show details1.accounts - 1 = cntFor (mdel s.account (id, who)) id
          rw [hacc1]
          omega
        · rw [mget_mput_ne s.asset id id' _ hid] at hd
          have hdel := cntFor_mdel s.account (id, who) (balance s id who) id' hC hsome
          rw [if_neg (by simp [hid])] at hdel
          simp only [Nat.add_zero] at hdel
          show d.accounts = cntFor (mdel s.account (id, who)) id'
          rw [hdel]
          exact hN id' d hd
    · -- the balance stays positive: the entry is updated in place
      simp only [saturatingSub256] at hz h1
      subst h1
      refine ⟨nodup_mput _ _ _ hA, nodup_mput _ _ _ hC, ?_, ?_, ?_⟩
      · intro id' who' b' hb'
        by_cases hid : id = id'
        · subst hid
          simp [mget_mput_self]
        · rw [mget_mput_ne s.account (id, who) (id', who') _
              (fun hkey => hid (congrArg Prod.fst hkey))] at hb'
          rw [mget_mput_ne s.asset id id' _ hid]
          exact hO id' who' b' hb'
      · intro id' d hd
        by_cases hid : id = id'
        · subst hid
          rw [mget_mput_self] at hd
          cases hd
          have hput := sumFor_mput_some s.account (id, who) (balance s id who)
            (balance s id who - amount) id hC hsome
          rw [if_pos rfl, if_pos rfl] at hput
          have hsum := hS id details hm
          show details1.supply =
            sumFor (mput s.account (id, who) (balance s id who - amount)) id
          rw [hsup1]
          omega
        · rw [mget_mput_ne s.asset id id' _ hid] at hd
          rw [sumFor_mput_ne s.account (id, who) _ id' hid]
          exact hS id' d hd
      · intro id' d hd
        by_cases hid : id = id'
        · subst hid
          rw [mget_mput_self] at hd
          cases hd
          have hput := cntFor_mput_some s.account (id, who) (balance s id who)
            (balance s id who - amount) id hC hsome
          rw [if_pos ⟨rfl, hbpos⟩,
            if_pos ⟨rfl, Nat.pos_of_ne_zero hz⟩] at hput
          have hcnt := hN id details hm
          show details1.accounts =
            cntFor (mput s.account (id, who) (balance s id who - amount)) id
          rw [hacc1]
          omega
        · rw [mget_mput_ne s.asset id id' _ hid] at hd
          rw [cntFor_mput_ne s.account (id, who) _ id' hid]
          exact hN id' d hd

theorem do_transfer_inv {s s' : St} {id source dest amount : Nat} {u : Unit}
    (h : do_transfer s id source dest amount = (s', .ok u)) (hinv : Inv s) :
    Inv s' := by
  obtain ⟨hA, hC, hO, hS, hN⟩ := hinv
  obtain ⟨details, hm, hbr⟩ := do_transfer_ok h
  rcases hbr with ⟨h0, h1⟩ | ⟨h0, hsd, h1⟩ | ⟨h0, hsd, hcd, hci, details1, hacct, hbr2⟩
  · subst h1
    exact ⟨hA, hC, hO, hS, hN⟩
  · subst h1
    rw [inv_emit]
    refine ⟨nodup_mput _ _ _ hA, hC, ?_, ?_, ?_⟩
    · intro id' who' b hb
      by_cases hid : id = id'
      · subst hid
        simp [mget_mput_self]
      · rw [mget_mput_ne s.asset id id' _ hid]
        exact hO id' who' b hb
    · intro id' d hd
      by_cases hid : id = id'
      · subst hid
        rw [mget_mput_self] at hd
        cases hd
        exact hS id details hm
      · rw [mget_mput_ne s.asset id id' _ hid] at hd
        exact hS id' d hd
    · intro id' d hd
      by_cases hid : id = id'
      · subst hid
        rw [mget_mput_self] at hd
        cases hd
        exact hN id details hm
      · rw [mget_mput_ne s.asset id id' _ hid] at hd
        exact hN id' d hd
  · have hdecS := can_decrease_success hm hcd
    have hincS := can_increase_success hm hci
    have hsrcpos : 0 < balance s id source :=
      Nat.lt_of_lt_of_le (Nat.pos_of_ne_zero h0) hdecS.2
    have hsomeS : mget s.account (id, source) = some (balance s id source) := by
      cases hb : mget s.account (id, source) with
      | none => simp [balance, hb] at hsrcpos
      | some b => simp [balance, hb]
    have hd2 := acct_branch hacct
    have hkeyne : ((id, dest) : Nat × Nat) ≠ (id, source) :=
      fun hkey => hsd (congrArg Prod.snd hkey).symm
    have hC1 : NodupKeys (mput s.account (id, dest)
        (balance s id dest + amount)) := nodup_mput _ _ _ hC
    have hsomeS1 : mget (mput s.account (id, dest) (balance s id dest + amount))
        (id, source) = some (balance s id source) := by
      rw [mget_mput_ne s.account (id, dest) (id, source) _ hkeyne]
      exact hsomeS
    have hsumM1 : sumFor (mput s.account (id, dest) (balance s id dest + amount)) id
        = sumFor s.account id + amount := by
      rw [sumFor_bump s.account (id, dest) (balance s id dest) amount id hC rfl]
      simp
    have hcntM1 : cntFor (mput s.account (id, dest) (balance s id dest + amount)) id
        = cntFor s.account id + (if balance s id dest = 0 then 1 else 0) := by
      rw [cntFor_bump s.account (id, dest) (balance s id dest) amount id hC
        (Nat.pos_of_ne_zero h0) rfl]
      by_cases hdz : balance s id dest = 0
      · simp [hdz]
      · simp [hdz]
    rcases hbr2 with ⟨hz, h1⟩ | ⟨hz, h1⟩
    · -- the source balance is wiped out
      rw [saturatingAdd256_eq hincS.2.2] at h1
      simp only [saturatingSub256] at hz
      simp only [saturatingSub256, saturatingSub32] at h1
      subst h1
      rw [inv_emit]
      refine ⟨nodup_mput _ _ _ hA, nodup_mdel _ _ hC1, ?_, ?_, ?_⟩
      · intro id' who' b hb
        by_cases hid : id = id'
        · subst hid
          simp [mget_mput_self]
        · rw [mget_mdel_ne _ (id, source) (id', who')
              (fun hkey => hid (congrArg Prod.fst hkey))] at hb
          rw [mget_mput_ne s.account (id, dest) (id', who') _
              (fun hkey => hid (congrArg Prod.fst hkey))] at hb
          rw [mget_mput_ne s.asset id id' _ hid]
          exact hO id' who' b hb
      · intro id' d hd
        by_cases hid : id = id'
        · subst hid
          rw [mget_mput_self] at hd
          cases hd
          have hdel := sumFor_mdel _ (id, source) (balance s id source) id hC1 hsomeS1
          rw [if_pos rfl] at hdel
          have hsum := hS id details hm
          show AssetDetails.supply
              { details1 with accounts := details1.accounts - 1 } =
            sumFor (mdel (mput s.account (id, dest)
              (balance s id dest + amount)) (id, source)) id
          simp only []
          rw [hd2.1]
          rcases hd2.2 with ⟨_, _⟩ | ⟨_, heq⟩ <;> omega
        · rw [mget_mput_ne s.asset id id' _ hid] at hd
          have hdel := sumFor_mdel _ (id, source) (balance s id source) id' hC1 hsomeS1
          rw [if_neg hid] at hdel
          simp only [Nat.add_zero] at hdel
          show d.supply = sumFor (mdel (mput s.account (id, dest)
            (balance s id dest + amount)) (id, source)) id'
          rw [hdel, sumFor_mput_ne s.account (id, dest) _ id' hid]
          exact hS id' d hd
      · intro id' d hd
        by_cases hid : id = id'
        · subst hid
          rw [mget_mput_self] at hd
          cases hd
          have hdel := cntFor_mdel _ (id, source) (balance s id source) id hC1 hsomeS1
          rw [if_pos ⟨rfl, hsrcpos⟩] at hdel
          have hcnt := hN id details hm
          show AssetDetails.accounts
              { details1 with accounts := details1.accounts - 1 } =
            cntFor (mdel (mput s.account (id, dest)
              (balance s id dest + amount)) (id, source)) id
          simp only []
          rcases hd2.2 with ⟨hdz, hacc2⟩ | ⟨hdz, heq⟩
          · rw [if_pos hdz] at hcntM1
            rw [hacc2]
            omega
          · rw [if_neg hdz] at hcntM1
            rw [heq]
            omega
        · rw [mget_mput_ne s.asset id id' _ hid] at hd
          have hdel := cntFor_mdel _ (id, source) (balance s id source) id' hC1 hsomeS1
          rw [if_neg (by simp [hid])] at hdel
          simp only [Nat.add_zero] at hdel
          show d.accounts = cntFor (mdel (mput s.account (id, dest)
            (balance s id dest + amount)) (id, source)) id'
          rw [hdel, cntFor_mput_ne s.account (id, dest) _ id' hid]
          exact hN id' d hd
    · -- the source keeps a positive balance
      rw [saturatingAdd256_eq hincS.2.2] at h1
      simp only [saturatingSub256] at hz h1
      subst h1
      rw [inv_emit]
      refine ⟨nodup_mput _ _ _ hA, nodup_mput _ _ _ hC1, ?_, ?_, ?_⟩
      · intro id' who' b hb
        by_cases hid : id = id'
        · subst hid
          simp [mget_mput_self]
        · rw [mget_mput_ne _ (id, source) (id', who') _
              (fun hkey => hid (congrArg Prod.fst hkey))] at hb
          rw [mget_mput_ne s.account (id, dest) (id', who') _
              (fun hkey => hid (congrArg Prod.fst hkey))] at hb
          rw [mget_mput_ne s.asset id id' _ hid]
          exact hO id' who' b hb
      · intro id' d hd
        by_cases hid : id = id'
        · subst hid
          rw [mget_mput_self] at hd
          cases hd
          have hput := sumFor_mput_some _ (id, source) (balance s id source)
            (balance s id source - amount) id hC1 hsomeS1
          rw [if_pos rfl, if_pos rfl] at hput
          have hsum := hS id details hm
          show details1.supply = sumFor (mput (mput s.account (id, dest)
            (balance s id dest + amount)) (id, source)
            (balance s id source - amount)) id
          rw [hd2.1]
          omega
        · rw [mget_mput_ne s.asset id id' _ hid] at hd
          show d.supply = sumFor (mput (mput s.account (id, dest)
            (balance s id dest + amount)) (id, source)
            (balance s id source - amount)) id'
          rw [sumFor_mput_ne _ (id, source) _ id' hid,
            sumFor_mput_ne s.account (id, dest) _ id' hid]
          exact hS id' d hd
      · intro id' d hd
        by_cases hid : id = id'
        · subst hid
          rw [mget_mput_self] at hd
          cases hd
          have hput := cntFor_mput_some _ (id, source) (balance s id source)
            (balance s id source - amount) id hC1 hsomeS1
          rw [if_pos ⟨rfl, hsrcpos⟩,
            if_pos ⟨rfl, Nat.pos_of_ne_zero hz⟩] at hput
          have hcnt := hN id details hm
          show details1.accounts = cntFor (mput (mput s.account (id, dest)
            (balance s id dest + amount)) (id, source)
            (balance s id source - amount)) id
          rcases hd2.2 with ⟨hdz, hacc2⟩ | ⟨hdz, heq⟩
          · rw [if_pos hdz] at hcntM1
            rw [hacc2]
            omega
          · rw [if_neg hdz] at hcntM1
            rw [heq]
            omega
        · rw [mget_mput_ne s.asset id id' _ hid] at hd
          show d.accounts = cntFor (mput (mput s.account (id, dest)
            (balance s id dest + amount)) (id, source)
            (balance s id source - amount)) id'
          rw [cntFor_mput_ne _ (id, source) _ id' hid,
            cntFor_mput_ne s.account (id, dest) _ id' hid]
          exact hN id' d hd

theorem inv_empty : Inv St.empty := by
  refine ⟨?_, ?_, ?_, ?_, ?_⟩
  · simp [NodupKeys, St.empty]
  · simp [NodupKeys, St.empty]
  · intro id who b hb
    simp [St.empty, mget] at hb
  · intro id d hd
    simp [St.empty, mget] at hd
  · intro id d hd
    simp [St.empty, mget] at hd

theorem inv_reachable {s : St} (h : Reachable s) : Inv s := by
  induction h with
  | base => exact inv_empty
  | step hr hstep ih =>
    cases hstep with
    | create h => exact do_create_inv h ih
    | issue h => exact do_issue_inv h ih
    | burn h => exact do_burn_inv h ih
    | transfer h => exact do_transfer_inv h ih

/-! ### Claims C1 and C4: the storage invariants -/

/-- Claim C1: for every asset id that has a record, after every sequence of
successful public operations (`create_asset`, `mint`, `burn`, `transfer`)
starting from empty storage, the stored total issuance of that asset equals
the sum of the stored balances of all accounts holding that asset. -/
theorem claim1_issuance_conservation :
    ∀ s : St, Reachable s → ∀ (id : Nat) (d : AssetDetails),
      mget s.asset id = some d → d.supply = sumFor s.account id := by
  intro s hr id d hd
  exact (inv_reachable hr).2.2.2.1 id d hd

theorem claim1_witness :
    mget stMinted.asset 0 = some ⟨5, 1⟩ ∧
    (⟨5, 1⟩ : AssetDetails).supply = sumFor stMinted.account 0 :=
  ⟨rfl,
   claim1_issuance_conservation stMinted
     (Reachable.step (Reachable.step Reachable.base
       (@Step.create St.empty stCreated 0 rfl))
       (@Step.issue stCreated stMinted 0 1 5 rfl)) 0 ⟨5, 1⟩ rfl⟩

/-- Claim C4: after every sequence of successful public operations starting
from empty storage, for every asset with a record, the stored
`account_count` equals the number of accounts whose stored balance for that
asset is strictly positive. -/
theorem claim4_account_count :
    ∀ s : St, Reachable s → ∀ (id : Nat) (d : AssetDetails),
      mget s.asset id = some d → d.accounts = cntFor s.account id := by
  intro s hr id d hd
  exact (inv_reachable hr).2.2.2.2 id d hd

theorem claim4_witness :
    mget stBurned.asset 0 = some ⟨3, 1⟩ ∧
    (⟨3, 1⟩ : AssetDetails).accounts = cntFor stBurned.account 0 :=
  ⟨rfl,
   claim4_account_count stBurned
     (Reachable.step (Reachable.step (Reachable.step Reachable.base
       (@Step.create St.empty stCreated 0 rfl))
       (@Step.issue stCreated stMinted 0 1 5 rfl))
       (@Step.burn stMinted stBurned 0 1 2 rfl)) 0 ⟨3, 1⟩ rfl⟩

end AssetsV3
